import Mathlib

/-!
Verification of the grammar-gen state-tracking and canonicalization engine.

The development shallowly embeds the code of `ParserStateExtractor.py` and of
`lark-test.py` (namespaces `ParserStateExtractor` and `LarkTest`).  The LALR
automaton itself, its interactive stepping interface and the lexer are external
collaborators (the lark library); they are modelled from the spec (sections 3,
4.1 and 4.4): an automaton maps a raw state id to a table of actions
(Shift / Reduce / Accept, with gotos stored as Shift actions under the rule
name, as lark does), feeding a token repeatedly reduces and finally shifts,
and the lexer performs maximal-munch tokenization with ignored whitespace.
-/

deriving instance DecidableEq for Except

namespace GrammarGen

/-- A lexical token as produced by the lexer: symbol name, matched text and
the half-open source span.  Mirrors the spec data model for Token. -/
structure Token where
  kind : String
  text : String
  startPos : Nat
  endPos : Nat
deriving Repr, DecidableEq

/-- One automaton action for a terminal (or, for gotos, a rule name). -/
inductive Action where
  | shift (target : Nat)
  | reduce (origin : String) (arity : Nat)
  | accept
deriving Repr, DecidableEq

/-- First-match association-list lookup (the order-insensitive core of a
Python dict lookup; keys are never duplicated where we use it). -/
def lookupKey {α β : Type} [DecidableEq α] : List (α × β) → α → Option β
  | [], _ => none
  | (k, v) :: rest, k' => if k = k' then some v else lookupKey rest k'

/-- Modelled from the spec: the compiled LALR automaton (an external
collaborator of the repository, section 3): a start state and, per raw state
id, the transition table.  Goto entries appear as Shift actions keyed by the
rule name, exactly as in lark parse tables. -/
structure ParseTable where
  start : Nat
  states : List (Nat × List (String × Action))
deriving Repr, DecidableEq

def ParseTable.lookupState (tbl : ParseTable) (sid : Nat) :
    Option (List (String × Action)) :=
  lookupKey tbl.states sid

def ParseTable.lookupAction (tbl : ParseTable) (sid : Nat) (term : String) :
    Option Action :=
  (tbl.lookupState sid).bind (fun entries => lookupKey entries term)

/-- Modelled from the spec (section 4.4): one feed of a token kind into a
session stack: reduce repeatedly (pop arity states, follow the goto of the
produced rule), then shift.  Returns none when no action is defined (the
grammar-level rejection).  The fuel bounds the reduce chain; any LALR table
produced by grammar compilation has reduce chains far below it. -/
def feedLoop (tbl : ParseTable) : Nat → List Nat → String → Option (List Nat)
  | 0, _, _ => none
  | fuel + 1, stack, kind =>
    match stack.getLast? with
    | none => none
    | some top =>
      match tbl.lookupAction top kind with
      | none => none
      | some (.accept) => none
      | some (.shift t) => some (stack ++ [t])
      | some (.reduce origin arity) =>
        let stack' := stack.take (stack.length - arity)
        match stack'.getLast? with
        | none => none
        | some top' =>
          match tbl.lookupAction top' origin with
          | some (.shift t) => feedLoop tbl fuel (stack' ++ [t]) kind
          | _ => none

/-- Modelled from the spec: feed one token (section 4.4). -/
def feedToken (tbl : ParseTable) (stack : List Nat) (kind : String) :
    Option (List Nat) :=
  feedLoop tbl (stack.length + tbl.states.length + 1) stack kind

/-- Feed a whole sequence of token kinds, stopping at the first grammar
rejection with a structured error (the message of the raised UnexpectedToken). -/
def feedAll (tbl : ParseTable) : List Nat → List String → Except String (List Nat)
  | stack, [] => .ok stack
  | stack, k :: ks =>
    match feedToken tbl stack k with
    | none => .error ("Unexpected token " ++ k)
    | some stack' => feedAll tbl stack' ks

/-- Modelled from the spec: the external lexer interface.  A lexer returns the
tokens recognized and, when a span matches no terminal, the failure offset
(the position carried by the UnexpectedCharacters exception). -/
def PyLexer : Type := String → List Token × Option Nat

/-- Single-character terminals of the balanced-arithmetic grammar. -/
def symKind (c : Char) : Option (String × String) :=
  if c = '+' then some ("PLUS", "+")
  else if c = '-' then some ("MINUS", "-")
  else if c = '*' then some ("STAR", "*")
  else if c = '/' then some ("SLASH", "/")
  else if c = '(' then some ("LPAR", "(")
  else if c = ')' then some ("RPAR", ")")
  else none

/-- Modelled from the spec: maximal-munch lexing for the arithmetic grammar
(NUMBER = a maximal digit run, the six single-character operators, whitespace
ignored).  Returns the recognized tokens and an optional failure offset.  The
first argument is structural fuel: every step consumes at least one
character, so any fuel of at least the list length is adequate and the
fuel-exhausted result is never reached from arithLex. -/
def lexChars : Nat → List Char → Nat → List Token × Option Nat
  | _, [], _ => ([], none)
  | 0, _ :: _, pos => ([], some pos)
  | fuel + 1, c :: rest, pos =>
    if c.isWhitespace then lexChars fuel rest (pos + 1)
    else if c.isDigit then
      let ds := rest.takeWhile Char.isDigit
      let tok : Token := ⟨"NUMBER", String.mk (c :: ds), pos, pos + 1 + ds.length⟩
      let r := lexChars fuel (rest.drop ds.length) (pos + 1 + ds.length)
      (tok :: r.1, r.2)
    else
      match symKind c with
      | some (k, t) =>
        let r := lexChars fuel rest (pos + 1)
        (⟨k, t, pos, pos + 1⟩ :: r.1, r.2)
      | none => ([], some pos)

/-- The arithmetic-grammar lexer as a PyLexer. -/
def arithLex : PyLexer := fun s => lexChars s.data.length s.data 0

/-! ## State fingerprinting (both source files contain the same code) -/

/-- The action rendering used by the fingerprint code: Shift carries its raw
target state, Reduce the produced rule and its arity, anything else falls back
to a generic rendering (source lines 84-92 of ParserStateExtractor.py). -/
def actionDescription : Action → String
  | .shift t => "Shift:" ++ Nat.repr t
  | .reduce origin arity => "Reduce:" ++ origin ++ ":" ++ Nat.repr arity
  | .accept => "Accept:None"

/-- Code-point lexicographic strict order on character lists (the order
Python uses to compare strings). -/
def charsLtb : List Char → List Char → Bool
  | [], [] => false
  | [], _ :: _ => true
  | _ :: _, [] => false
  | c :: cs, d :: ds =>
    if c.toNat < d.toNat then true
    else if d.toNat < c.toNat then false
    else charsLtb cs ds

/-- Lexicographic order on the (terminal, actionDescription) pairs, as Python
sorts tuples of strings. -/
def pairLeb (a b : String × String) : Bool :=
  if a.1 = b.1 then !(charsLtb b.2.data a.2.data) else charsLtb a.1.data b.1.data

def insertPair (x : String × String) : List (String × String) → List (String × String)
  | [] => [x]
  | y :: ys => if pairLeb x y then x :: y :: ys else y :: insertPair x ys

/-- Sorting step of the fingerprint (source line 97). -/
def sortPairs (l : List (String × String)) : List (String × String) :=
  l.foldr insertPair []

/-- A state fingerprint: the sorted (terminal, actionDescription) pairs. -/
def Fingerprint : Type := List (String × String)

instance : DecidableEq Fingerprint := by
  unfold Fingerprint; infer_instance

/-- Embeds ParserStateExtractor._get_state_fingerprint (identical in both
source files): none for a raw state unknown to the automaton, otherwise the
sorted rendering of its transition table. -/
def _get_state_fingerprint (tbl : ParseTable) (state_id : Nat) : Option Fingerprint :=
  match tbl.lookupState state_id with
  | none => none
  | some entries =>
    some (sortPairs (entries.map (fun p => (p.1, actionDescription p.2))))

/-! ## Canonical ID registry -/

/-- The registry owned by one tracker: the dict from fingerprint hash to
canonical id (insertion-ordered association list, as a Python dict) and the
monotonic counter. -/
structure Registry where
  _state_mapping : List (Int × String)
  _state_counter : Nat
deriving Repr, DecidableEq

def Registry.init : Registry := ⟨[], 0⟩

/-- Modelled from the spec: the ambient hash over fingerprints is the opaque
Python builtin (external to the repository).  All theorems are parameterized
over it; any hash separating the fingerprints at hand yields the observable
behavior of the code. -/
def PyHashFun : Type := Fingerprint → Int

/-- Embeds the registry body of ParserStateExtractor._get_consistent_state_id
(source lines 108-117), with the None propagation of lines 107-109: a seen
hash returns the stored id, a novel hash mints the next counter value. -/
def resolveFingerprint (h : PyHashFun) :
    Option Fingerprint → Registry → Option String × Registry
  | none, st => (none, st)
  | some fp, st =>
    match lookupKey st._state_mapping (h fp) with
    | some v => (some v, st)
    | none =>
      (some ("S" ++ Nat.repr st._state_counter),
       { _state_mapping :=
           st._state_mapping ++ [(h fp, "S" ++ Nat.repr st._state_counter)],
         _state_counter := st._state_counter + 1 })

/-- Embeds ParserStateExtractor._get_consistent_state_id (fingerprint then
resolve). -/
def _get_consistent_state_id (h : PyHashFun) (tbl : ParseTable) (state_id : Nat)
    (st : Registry) : Option String × Registry :=
  resolveFingerprint h (_get_state_fingerprint tbl state_id) st

/-- A sequence of resolve operations within one tracker lifetime. -/
def applyResolves (h : PyHashFun) (fps : List (Option Fingerprint)) (st : Registry) :
    Registry :=
  fps.foldl (fun s fp => (resolveFingerprint h fp s).2) st

/-- Well-formedness of a registry reachable from a fresh tracker: the counter
equals the number of stored associations, hashes are stored at most once, and
the j-th association ever stored carries the id S j (first-seen order). -/
def Registry.WF (st : Registry) : Prop :=
  st._state_counter = st._state_mapping.length ∧
  (st._state_mapping.map Prod.fst).Nodup ∧
  ∀ j (hj : j < st._state_mapping.length),
    (st._state_mapping.get ⟨j, hj⟩).2 = "S" ++ Nat.repr j

/-! ## Parser state snapshot -/

/-- The snapshot dictionary built by ParserStateExtractor.get_parser_state. -/
structure Snapshot where
  current_state : Option String
  stack : List (Option String)
  stack_top : Option (Option String)
deriving Repr, DecidableEq

/-- Python list slicing l[start:] (negative start counts from the end), the
semantics of the stack truncation consistent_stack[-top_k:]. -/
def pySliceFrom {α : Type} (start : Int) (l : List α) : List α :=
  let n : Int := l.length
  let e := if start < 0 then start + n else start
  l.drop (max 0 (min e n)).toNat

/-- Resolve every raw state of a stack in order, threading the registry
(the list comprehension of source line 132). -/
def resolveStack (h : PyHashFun) (tbl : ParseTable) :
    List Nat → Registry → List (Option String) × Registry
  | [], st => ([], st)
  | s :: rest, st =>
    let r1 := _get_consistent_state_id h tbl s st
    let r2 := resolveStack h tbl rest r1.2
    (r1.1 :: r2.1, r2.2)

/-- Embeds ParserStateExtractor.get_parser_state (source lines 119-141): the
session position is the top of the state stack (a session stack is never
empty: it starts with the automaton start state); the current state is
resolved first, then the whole stack; top_k of none keeps the full canonical
stack, otherwise Python slicing keeps the tail.  The Python default argument
top_k=3 is passed explicitly by the callers of this embedding. -/
def get_parser_state (h : PyHashFun) (tbl : ParseTable) (raw_stack : List Nat)
    (top_k : Option Int) (st : Registry) : Snapshot × Registry :=
  let raw_state_id := (raw_stack.getLast?).getD 0
  let r1 := _get_consistent_state_id h tbl raw_state_id st
  let r2 := resolveStack h tbl raw_stack r1.2
  ({ current_state := r1.1,
     stack :=
       match top_k with
       | none => r2.1
       | some k => pySliceFrom (-k) r2.1,
     stack_top := r2.1.getLast? },
   r2.2)

/-! ## The ParserStateExtractor.py module -/

namespace ParserStateExtractor

/-- The full-coverage analysis of get_tokens_with_remainder (source lines
40-50): check whether the last token reaches the end of the input and
otherwise return the trailing gap; with no tokens at all the whole input is
the remainder. -/
def gtwrFull (sequence : String) (tokens : List Token) :
    Except String (List Token × String) :=
  match tokens.getLast? with
  | some t =>
    if t.endPos < sequence.data.length then
      .ok (tokens, String.mk (sequence.data.drop t.endPos))
    else
      .ok (tokens, "")
  | none => .ok ([], sequence)

/-- The UnexpectedCharacters branch of get_tokens_with_remainder (source
lines 52-59): re-lex the prefix before the failure offset and return the
suffix from that offset as remainder.  A failure of the inner re-lex would
escape to the caller (it never does for the lexers used here), modelled by
the error result. -/
def gtwrErr (lexer : PyLexer) (sequence : String) (p : Nat) :
    Except String (List Token × String) :=
  match lexer (String.mk (sequence.data.take p)) with
  | (tokens, none) => .ok (tokens, String.mk (sequence.data.drop p))
  | (_, some q) => .error ("UnexpectedCharacters at " ++ Nat.repr q)

/-- Embeds get_tokens_with_remainder (source lines 35-59). -/
def get_tokens_with_remainder (lexer : PyLexer) (sequence : String) :
    Except String (List Token × String) :=
  match lexer sequence with
  | (tokens, none) => gtwrFull sequence tokens
  | (_, some p) => gtwrErr lexer sequence p

/-- Embeds get_tokens (source lines 31-34): a plain full lex, raising on any
unlexable span. -/
def get_tokens (lexer : PyLexer) (sequence : String) : Except String (List Token) :=
  match lexer sequence with
  | (tokens, none) => .ok tokens
  | (_, some q) => .error ("UnexpectedCharacters at " ++ Nat.repr q)

/-- Result of parse_partial: either the snapshot dictionary extended with the
remainder, or the except-branch failure dictionary with success False and an
error message. -/
inductive PPResult where
  | ok (snap : Snapshot) (remainder : String)
  | err (msg : String)
deriving Repr, DecidableEq

def PPResult.isErr : PPResult → Bool
  | .ok _ _ => false
  | .err _ => true

/-- Embeds parse_partial of ParserStateExtractor.py (source lines 143-170).
Two source facts are reproduced exactly: the top_k argument is accepted but
never forwarded to get_parser_state, which therefore runs with its default
top_k=3; and the local variable remainder is only bound on the lexing path,
so a provided tokens argument makes the final assignment raise a NameError
that the blanket except turns into the failure dictionary. -/
def parsePartial (h : PyHashFun) (tbl : ParseTable) (lexer : PyLexer)
    (sequence : String) (top_k : Option Int) (tokens? : Option (List Token))
    (st : Registry) : PPResult × Registry :=
  match tokens? with
  | some tokens =>
    match feedAll tbl [tbl.start] (tokens.map Token.kind) with
    | .error e => (.err e, st)
    | .ok stack =>
      let r := get_parser_state h tbl stack (some 3) st
      (.err "NameError: name remainder is not defined", r.2)
  | none =>
    match get_tokens_with_remainder lexer sequence with
    | .error e => (.err e, st)
    | .ok (tokens, remainder) =>
      match feedAll tbl [tbl.start] (tokens.map Token.kind) with
      | .error e => (.err e, st)
      | .ok stack =>
        let r := get_parser_state h tbl stack (some 3) st
        (.ok r.1 remainder, r.2)

/-- One per-step dictionary of analyze_incremental (ParserStateExtractor.py):
the success records carry the snapshot, the 1-based token position and the
token prefix; the except-branch record carries the error. -/
structure TraceRecord where
  position : Nat
  success : Bool
  current_state : Option String := none
  stack : List (Option String) := []
  stack_top : Option (Option String) := none
  text : List Token := []
  remainder : Option String := none
  error : Option String := none
deriving Repr, DecidableEq

def mkErrorRecord (pos : Nat) (e : String) : TraceRecord :=
  { position := pos, success := false, error := some e }

/-- The token loop of analyze_incremental (source lines 185-192): one shared
session advanced in place, one record per successfully fed token; a feed
failure aborts the loop with the exception message. -/
def analyzeLoop (h : PyHashFun) (tbl : ParseTable) (allT : List Token) :
    List Token → Nat → List Nat → Registry →
    List TraceRecord × Registry × Option String
  | [], _, _, st => ([], st, none)
  | t :: rest, i, stack, st =>
    match feedToken tbl stack t.kind with
    | none => ([], st, some ("Unexpected token " ++ t.kind))
    | some stack' =>
      let r := get_parser_state h tbl stack' (some 3) st
      let rec0 : TraceRecord :=
        { position := i + 1, success := true,
          current_state := r.1.current_state, stack := r.1.stack,
          stack_top := r.1.stack_top, text := allT.take (i + 1) }
      let rest' := analyzeLoop h tbl allT rest (i + 1) stack' r.2
      (rec0 :: rest'.1, rest'.2.1, rest'.2.2)

/-- Set the remainder on the last record (the results[-1] assignment of
source line 193). -/
def setLastRemainder (rem : String) : List TraceRecord → List TraceRecord
  | [] => []
  | [r] => [{ r with remainder := some rem }]
  | r :: rs => r :: setLastRemainder rem rs

/-- The post-loop steps of analyze_incremental: a loop exception becomes a
trailing failure record; otherwise the results[-1] assignment sets the
remainder on the last record, raising an IndexError (caught by the blanket
except) when no record was appended. -/
def analyzeFinish (slen : Nat) (remainder : String)
    (r : List TraceRecord × Registry × Option String) :
    List TraceRecord × Registry :=
  match r.2.2 with
  | some e => (r.1 ++ [mkErrorRecord slen e], r.2.1)
  | none =>
    match r.1 with
    | [] => ([mkErrorRecord slen "list index out of range"], r.2.1)
    | _ => (setLastRemainder remainder r.1, r.2.1)

/-- Embeds analyze_incremental of ParserStateExtractor.py (source lines
171-203).  The whole input is lexed once, a single session is advanced token
by token, and each fed token appends one success record.  When no record was
appended (zero tokens) the results[-1] assignment raises an IndexError that
the blanket except records as a failure covering the whole input. -/
def analyze_incremental (h : PyHashFun) (tbl : ParseTable) (lexer : PyLexer)
    (sequence : String) (st : Registry) : List TraceRecord × Registry :=
  match get_tokens_with_remainder lexer sequence with
  | .error e => ([mkErrorRecord sequence.data.length e], st)
  | .ok (all_tokens, remainder) =>
    analyzeFinish sequence.data.length remainder
      (analyzeLoop h tbl all_tokens all_tokens 0 [tbl.start] st)

end ParserStateExtractor

/-! ## The lark-test.py module -/

namespace LarkTest

/-- One per-step dictionary of analyze_incremental (lark-test.py). -/
structure TraceRecord where
  position : Nat
  tokens_parsed : Nat := 0
  text : String := ""
  current_state : Option String := none
  stack : List (Option String) := []
  raw_stack : List Nat := []
  success : Bool
  error : Option String := none
deriving Repr, DecidableEq

/-- The prefix loop of lark-test.py analyze_incremental (source lines
150-184): for each prefix length a fresh session is created and the prefix is
replayed from scratch; the record carries the full canonical stack (no
truncation), the raw stack and the byte offset reached. -/
def analyzeLoop (h : PyHashFun) (tbl : ParseTable) (allT : List Token)
    (sdata : List Char) : Nat → Nat → Registry →
    List TraceRecord × Registry × Option String
  | 0, _, st => ([], st, none)
  | k + 1, i, st =>
    match feedAll tbl [tbl.start] ((allT.take i).map Token.kind) with
    | .error e => ([], st, some e)
    | .ok stack =>
      let raw_state_id := (stack.getLast?).getD 0
      let r1 := _get_consistent_state_id h tbl raw_state_id st
      let r2 := resolveStack h tbl stack r1.2
      let token_position :=
        if i = 0 then 0 else (((allT.get? (i - 1)).map Token.endPos).getD 0)
      let rec0 : TraceRecord :=
        { position := token_position, tokens_parsed := i,
          text := String.mk (sdata.take token_position),
          current_state := r1.1, stack := r2.1, raw_stack := stack,
          success := true }
      let rest' := analyzeLoop h tbl allT sdata k (i + 1) r2.2
      (rec0 :: rest'.1, rest'.2.1, rest'.2.2)

/-- The post-loop step of lark-test.py analyze_incremental: a replay failure
appends a single failure record after the records of the shorter prefixes. -/
def analyzeFinish (slen : Nat)
    (r : List TraceRecord × Registry × Option String) :
    List TraceRecord × Registry :=
  match r.2.2 with
  | some e =>
    (r.1 ++ [{ position := slen, success := false, error := some e }], r.2.1)
  | none => (r.1, r.2.1)

/-- Embeds analyze_incremental of lark-test.py (source lines 142-195): lex
the whole input once (raising lexer errors into the except branch), then for
every prefix length 0..n replay a fresh session. -/
def analyze_incremental (h : PyHashFun) (tbl : ParseTable) (lexer : PyLexer)
    (sequence : String) (st : Registry) : List TraceRecord × Registry :=
  match ParserStateExtractor.get_tokens lexer sequence with
  | .error e =>
    ([{ position := sequence.data.length, success := false, error := some e }], st)
  | .ok all_tokens =>
    analyzeFinish sequence.data.length
      (analyzeLoop h tbl all_tokens sequence.data (all_tokens.length + 1) 0 st)

end LarkTest

/-! ## The concrete arithmetic automaton and a concrete ambient hash -/

/-- Modelled from the spec: the LALR(1) automaton produced by the external
grammar compiler for the balanced-arithmetic grammar of section 8 (start:
expr; expr: sum; sum: product | sum PLUS product | sum MINUS product;
product: atom | product STAR atom | product SLASH atom; atom: NUMBER | LPAR
expr RPAR), with gotos stored as Shift actions under the rule name as in lark
parse tables. -/
def arithTable : ParseTable :=
  ⟨0,
   [(0, [("NUMBER", .shift 6), ("LPAR", .shift 7), ("start", .shift 1),
         ("expr", .shift 2), ("sum", .shift 3), ("product", .shift 4),
         ("atom", .shift 5)]),
    (1, [("$END", .accept)]),
    (2, [("$END", .reduce "start" 1)]),
    (3, [("PLUS", .shift 8), ("MINUS", .shift 9),
         ("$END", .reduce "expr" 1), ("RPAR", .reduce "expr" 1)]),
    (4, [("STAR", .shift 10), ("SLASH", .shift 11),
         ("PLUS", .reduce "sum" 1), ("MINUS", .reduce "sum" 1),
         ("$END", .reduce "sum" 1), ("RPAR", .reduce "sum" 1)]),
    (5, [("PLUS", .reduce "product" 1), ("MINUS", .reduce "product" 1),
         ("STAR", .reduce "product" 1), ("SLASH", .reduce "product" 1),
         ("$END", .reduce "product" 1), ("RPAR", .reduce "product" 1)]),
    (6, [("PLUS", .reduce "atom" 1), ("MINUS", .reduce "atom" 1),
         ("STAR", .reduce "atom" 1), ("SLASH", .reduce "atom" 1),
         ("$END", .reduce "atom" 1), ("RPAR", .reduce "atom" 1)]),
    (7, [("NUMBER", .shift 6), ("LPAR", .shift 7), ("expr", .shift 12),
         ("sum", .shift 3), ("product", .shift 4), ("atom", .shift 5)]),
    (8, [("NUMBER", .shift 6), ("LPAR", .shift 7), ("product", .shift 13),
         ("atom", .shift 5)]),
    (9, [("NUMBER", .shift 6), ("LPAR", .shift 7), ("product", .shift 14),
         ("atom", .shift 5)]),
    (10, [("NUMBER", .shift 6), ("LPAR", .shift 7), ("atom", .shift 15)]),
    (11, [("NUMBER", .shift 6), ("LPAR", .shift 7), ("atom", .shift 16)]),
    (12, [("RPAR", .shift 17)]),
    (13, [("STAR", .shift 10), ("SLASH", .shift 11),
          ("PLUS", .reduce "sum" 3), ("MINUS", .reduce "sum" 3),
          ("$END", .reduce "sum" 3), ("RPAR", .reduce "sum" 3)]),
    (14, [("STAR", .shift 10), ("SLASH", .shift 11),
          ("PLUS", .reduce "sum" 3), ("MINUS", .reduce "sum" 3),
          ("$END", .reduce "sum" 3), ("RPAR", .reduce "sum" 3)]),
    (15, [("PLUS", .reduce "product" 3), ("MINUS", .reduce "product" 3),
          ("STAR", .reduce "product" 3), ("SLASH", .reduce "product" 3),
          ("$END", .reduce "product" 3), ("RPAR", .reduce "product" 3)]),
    (16, [("PLUS", .reduce "product" 3), ("MINUS", .reduce "product" 3),
          ("STAR", .reduce "product" 3), ("SLASH", .reduce "product" 3),
          ("$END", .reduce "product" 3), ("RPAR", .reduce "product" 3)]),
    (17, [("PLUS", .reduce "atom" 3), ("MINUS", .reduce "atom" 3),
          ("STAR", .reduce "atom" 3), ("SLASH", .reduce "atom" 3),
          ("$END", .reduce "atom" 3), ("RPAR", .reduce "atom" 3)])]⟩

/-- A positional string hash used to instantiate the ambient PyHashFun in
concrete scenarios. -/
def strHash (s : String) : Int :=
  s.data.foldl (fun a c => a * 313 + Int.ofNat c.toNat + 1) 7

/-- Modelled from the spec: a concrete stand-in for the opaque Python builtin
hash on fingerprints; it separates all fingerprints arising in the scenarios
below, which is the only property of the builtin the code relies on. -/
def pyHash : PyHashFun := fun fp =>
  fp.foldl (fun a p => a * 1009 + strHash p.1 * 1000003 + strHash p.2) 3

/-! ## Decimal representation facts

The canonical ids are the strings S0, S1, ...; their pairwise distinctness
reduces to injectivity of the decimal rendering of Nat, proved here from the
core toDigitsCore implementation. -/

lemma toDigitsCore_shift (n : Nat) : ∀ fuel ds, n < fuel →
    Nat.toDigitsCore 10 fuel n ds = Nat.toDigitsCore 10 (n + 1) n [] ++ ds := by
  induction n using Nat.strong_induction_on with
  | _ n ih =>
    intro fuel ds hf
    match fuel, hf with
    | fuel + 1, hf =>
      have hle : n ≤ fuel := Nat.lt_succ_iff.mp hf
      by_cases h0 : n / 10 = 0
      · simp only [Nat.toDigitsCore, h0, if_true, List.cons_append, List.nil_append]
      · have hdiv : n / 10 < n := Nat.div_lt_self (Nat.pos_of_ne_zero (by omega)) (by omega)
        simp only [Nat.toDigitsCore, h0, if_false]
        rw [ih (n / 10) hdiv fuel _ (Nat.lt_of_lt_of_le hdiv hle),
            ih (n / 10) hdiv n _ hdiv, List.append_assoc]
        simp

lemma toDigits_lt_ten {n : Nat} (h : n < 10) :
    Nat.toDigits 10 n = [Nat.digitChar n] := by
  have h0 : n / 10 = 0 := Nat.div_eq_of_lt h
  have hm : n % 10 = n := Nat.mod_eq_of_lt h
  simp [Nat.toDigits, Nat.toDigitsCore, h0, hm]

lemma toDigits_ge_ten {n : Nat} (h : 10 ≤ n) :
    Nat.toDigits 10 n = Nat.toDigits 10 (n / 10) ++ [Nat.digitChar (n % 10)] := by
  have h0 : n / 10 ≠ 0 := by
    have := Nat.div_le_div_right (c := 10) h
    simp at this; omega
  have hdiv : n / 10 < n := Nat.div_lt_self (by omega) (by omega)
  show Nat.toDigitsCore 10 (n + 1) n [] = _
  simp only [Nat.toDigitsCore, h0, if_false]
  rw [toDigitsCore_shift (n / 10) n _ hdiv]
  rfl

lemma digitChar_inj_fin : ∀ a b : Fin 10,
    Nat.digitChar a.val = Nat.digitChar b.val → a = b := by decide

lemma digitChar_inj {a b : Nat} (ha : a < 10) (hb : b < 10)
    (h : Nat.digitChar a = Nat.digitChar b) : a = b :=
  congrArg Fin.val (digitChar_inj_fin ⟨a, ha⟩ ⟨b, hb⟩ h)

lemma toDigits_ne_nil (n : Nat) : Nat.toDigits 10 n ≠ [] := by
  by_cases h : n < 10
  · rw [toDigits_lt_ten h]; simp
  · rw [toDigits_ge_ten (by omega)]; simp

lemma toDigits_injective : ∀ m n : Nat, Nat.toDigits 10 m = Nat.toDigits 10 n → m = n := by
  intro m
  induction m using Nat.strong_induction_on with
  | _ m ih =>
    intro n h
    by_cases hm : m < 10 <;> by_cases hn : n < 10
    · rw [toDigits_lt_ten hm, toDigits_lt_ten hn] at h
      injection h with h1 _
      exact digitChar_inj hm hn h1
    · rw [toDigits_lt_ten hm, toDigits_ge_ten (show (10:Nat) ≤ n by omega)] at h
      have hlen := congrArg List.length h
      simp only [List.length_cons, List.length_nil, List.length_append] at hlen
      have h0 : (Nat.toDigits 10 (n / 10)).length = 0 := by omega
      exact absurd (List.length_eq_zero.mp h0) (toDigits_ne_nil (n / 10))
    · rw [toDigits_ge_ten (show (10:Nat) ≤ m by omega), toDigits_lt_ten hn] at h
      have hlen := congrArg List.length h
      simp only [List.length_cons, List.length_nil, List.length_append] at hlen
      have h0 : (Nat.toDigits 10 (m / 10)).length = 0 := by omega
      exact absurd (List.length_eq_zero.mp h0) (toDigits_ne_nil (m / 10))
    · rw [toDigits_ge_ten (show (10:Nat) ≤ m by omega),
          toDigits_ge_ten (show (10:Nat) ≤ n by omega)] at h
      have hparts := List.append_inj' h (by simp)
      have hdig := hparts.2
      injection hdig with hdig1 _
      have hmod : m % 10 = n % 10 :=
        digitChar_inj (Nat.mod_lt _ (by omega)) (Nat.mod_lt _ (by omega)) hdig1
      have hdivlt : m / 10 < m := Nat.div_lt_self (by omega) (by omega)
      have hdiveq : m / 10 = n / 10 := ih (m / 10) hdivlt (n / 10) hparts.1
      omega

lemma string_data_append (s t : String) : (s ++ t).data = s.data ++ t.data := by
  cases s; cases t; rfl

lemma natRepr_injective {m n : Nat} (h : Nat.repr m = Nat.repr n) : m = n := by
  apply toDigits_injective
  have hd := congrArg String.data h
  simpa [Nat.repr, List.asString] using hd

lemma sRepr_injective {m n : Nat} (h : "S" ++ Nat.repr m = "S" ++ Nat.repr n) :
    m = n := by
  apply natRepr_injective
  have hd := congrArg String.data h
  rw [string_data_append, string_data_append] at hd
  exact String.ext (List.append_cancel_left hd)

/-! ## Association-list lookup lemmas -/

section LookupLemmas

variable {α β : Type} [DecidableEq α]

lemma lookupKey_append_left {l : List (α × β)} (l' : List (α × β)) {k : α} {v : β}
    (h : lookupKey l k = some v) : lookupKey (l ++ l') k = some v := by
  induction l with
  | nil => simp [lookupKey] at h
  | cons p rest ih =>
    obtain ⟨a, b⟩ := p
    rw [List.cons_append]
    by_cases hab : a = k
    · simpa [lookupKey, hab] using h
    · simp only [lookupKey, hab, if_false] at h ⊢
      exact ih h

lemma lookupKey_none_append {l l' : List (α × β)} {k : α}
    (h : lookupKey l k = none) : lookupKey (l ++ l') k = lookupKey l' k := by
  induction l with
  | nil => simp
  | cons p rest ih =>
    obtain ⟨a, b⟩ := p
    rw [List.cons_append]
    by_cases hab : a = k
    · simp [lookupKey, hab] at h
    · simp only [lookupKey, hab, if_false] at h ⊢
      exact ih h

lemma lookupKey_none_iff {l : List (α × β)} {k : α} :
    lookupKey l k = none ↔ k ∉ l.map Prod.fst := by
  induction l with
  | nil => simp [lookupKey]
  | cons p rest ih =>
    obtain ⟨a, b⟩ := p
    by_cases hab : a = k
    · simp [lookupKey, hab]
    · simp only [lookupKey, hab, if_false, List.map_cons, List.mem_cons]
      rw [ih]
      constructor
      · intro hk hor
        rcases hor with h1 | h2
        · exact hab h1.symm
        · exact hk h2
      · intro hk hmem
        exact hk (Or.inr hmem)

lemma lookupKey_mem_get {l : List (α × β)} {k : α} {v : β}
    (h : lookupKey l k = some v) :
    ∃ j, ∃ hj : j < l.length, l.get ⟨j, hj⟩ = (k, v) := by
  induction l with
  | nil => simp [lookupKey] at h
  | cons p rest ih =>
    obtain ⟨a, b⟩ := p
    by_cases hab : a = k
    · refine ⟨0, by simp, ?_⟩
      simp only [lookupKey, hab, if_true] at h
      simp only [Option.some.injEq] at h
      simp [hab, ← h]
    · simp only [lookupKey, hab, if_false] at h
      obtain ⟨j, hj, hget⟩ := ih h
      exact ⟨j + 1, by simpa using hj, by simpa using hget⟩

end LookupLemmas

/-! ## Registry lemmas -/

lemma WF_init : Registry.init.WF := by
  refine ⟨rfl, by simp [Registry.init], ?_⟩
  intro j hj
  simp [Registry.init] at hj

lemma resolve_found {h : PyHashFun} {st : Registry} {fp : Fingerprint} {v : String}
    (hv : lookupKey st._state_mapping (h fp) = some v) :
    resolveFingerprint h (some fp) st = (some v, st) := by
  simp [resolveFingerprint, hv]

lemma resolve_new {h : PyHashFun} {st : Registry} {fp : Fingerprint}
    (hv : lookupKey st._state_mapping (h fp) = none) :
    resolveFingerprint h (some fp) st =
      (some ("S" ++ Nat.repr st._state_counter),
       { _state_mapping :=
           st._state_mapping ++ [(h fp, "S" ++ Nat.repr st._state_counter)],
         _state_counter := st._state_counter + 1 }) := by
  simp [resolveFingerprint, hv]

lemma resolve_preserves {h : PyHashFun} (fp? : Option Fingerprint) {st : Registry}
    {k : Int} {v : String} (hk : lookupKey st._state_mapping k = some v) :
    lookupKey (resolveFingerprint h fp? st).2._state_mapping k = some v := by
  match fp? with
  | none => exact hk
  | some fp =>
    cases hl : lookupKey st._state_mapping (h fp) with
    | some w => rw [resolve_found hl]; exact hk
    | none => rw [resolve_new hl]; exact lookupKey_append_left _ hk

lemma applyResolves_preserves {h : PyHashFun} (fps : List (Option Fingerprint))
    {st : Registry} {k : Int} {v : String}
    (hk : lookupKey st._state_mapping k = some v) :
    lookupKey (applyResolves h fps st)._state_mapping k = some v := by
  induction fps generalizing st with
  | nil => exact hk
  | cons fp rest ih =>
    show lookupKey (applyResolves h rest (resolveFingerprint h fp st).2)._state_mapping k = some v
    exact ih (resolve_preserves fp hk)

lemma resolve_then_lookup {h : PyHashFun} {fp : Fingerprint} {st st' : Registry}
    {v : String} (hr : resolveFingerprint h (some fp) st = (some v, st')) :
    lookupKey st'._state_mapping (h fp) = some v := by
  cases hl : lookupKey st._state_mapping (h fp) with
  | some w =>
    rw [resolve_found hl] at hr
    obtain ⟨hv, hst⟩ := Prod.mk.injEq .. ▸ hr
    simp at hr
    rw [← hr.2, ← hr.1] at *
    simpa using hl
  | none =>
    rw [resolve_new hl] at hr
    simp at hr
    rw [← hr.2]
    simp only
    rw [lookupKey_none_append hl]
    simp [lookupKey, hr.1]

lemma WF_resolve (h : PyHashFun) (fp? : Option Fingerprint) {st : Registry}
    (hwf : st.WF) : (resolveFingerprint h fp? st).2.WF := by
  match fp? with
  | none => exact hwf
  | some fp =>
    cases hl : lookupKey st._state_mapping (h fp) with
    | some w => rw [resolve_found hl]; exact hwf
    | none =>
      rw [resolve_new hl]
      obtain ⟨hc, hnd, hidx⟩ := hwf
      refine ⟨by simp [hc], ?_, ?_⟩
      · rw [List.map_append]
        rw [List.nodup_append]
        refine ⟨hnd, by simp, ?_⟩
        intro a ha hb
        simp at hb
        rw [hb] at ha
        exact (lookupKey_none_iff.mp hl) ha
      · intro j hj
        simp only [List.length_append, List.length_cons, List.length_nil] at hj
        rcases Nat.lt_or_ge j st._state_mapping.length with hlt | hge
        · rw [List.get_append _ hlt]
          exact hidx j hlt
        · have hj' : j = st._state_mapping.length := by omega
          subst hj'
          simp only [List.get_eq_getElem]
          rw [List.getElem_concat_length _ _ _ rfl]
          rw [hc]

lemma WF_applyResolves (h : PyHashFun) (fps : List (Option Fingerprint))
    {st : Registry} (hwf : st.WF) : (applyResolves h fps st).WF := by
  induction fps generalizing st with
  | nil => exact hwf
  | cons fp rest ih =>
    show ((applyResolves h rest (resolveFingerprint h fp st).2)).WF
    exact ih (WF_resolve h fp hwf)

lemma WF_lookup_val {st : Registry} (hwf : st.WF) {k : Int} {v : String}
    (h : lookupKey st._state_mapping k = some v) :
    ∃ j, j < st._state_counter ∧ v = "S" ++ Nat.repr j := by
  obtain ⟨j, hj, hget⟩ := lookupKey_mem_get h
  obtain ⟨hc, hnd, hidx⟩ := hwf
  refine ⟨j, by omega, ?_⟩
  have hval := hidx j hj
  rw [hget] at hval
  exact hval

lemma WF_lookup_inj {st : Registry} (hwf : st.WF) {k1 k2 : Int} {v1 v2 : String}
    (h1 : lookupKey st._state_mapping k1 = some v1)
    (h2 : lookupKey st._state_mapping k2 = some v2)
    (hk : k1 ≠ k2) : v1 ≠ v2 := by
  obtain ⟨j1, hj1, hget1⟩ := lookupKey_mem_get h1
  obtain ⟨j2, hj2, hget2⟩ := lookupKey_mem_get h2
  obtain ⟨hc, hnd, hidx⟩ := hwf
  have hv1 : v1 = "S" ++ Nat.repr j1 := by
    have := hidx j1 hj1; rw [hget1] at this; exact this
  have hv2 : v2 = "S" ++ Nat.repr j2 := by
    have := hidx j2 hj2; rw [hget2] at this; exact this
  have hjne : j1 ≠ j2 := by
    intro hcon
    subst hcon
    rw [hget1] at hget2
    exact hk (congrArg Prod.fst hget2)
  intro hcon
  rw [hv1, hv2] at hcon
  exact hjne (sRepr_injective hcon)

/-! ## Python slice lemmas -/

lemma pySliceFrom_neg {α : Type} (k : Int) (hk : 1 ≤ k) (l : List α) :
    pySliceFrom (-k) l = l.drop (l.length - k.toNat) := by
  simp only [pySliceFrom]
  rw [if_pos (show -k < 0 by omega)]
  congr 1
  omega

lemma pySliceFrom_neg_length {α : Type} (k : Int) (hk : 1 ≤ k) (l : List α) :
    (pySliceFrom (-k) l).length = min k.toNat l.length := by
  rw [pySliceFrom_neg k hk, List.length_drop]
  omega

/-! ## Feed and trace-loop lemmas -/

lemma feedAll_append (tbl : ParseTable) (st : List Nat) (a b : List String) :
    feedAll tbl st (a ++ b) =
      match feedAll tbl st a with
      | .ok m => feedAll tbl m b
      | .error e => .error e := by
  induction a generalizing st with
  | nil => simp [feedAll]
  | cons k ks ih =>
    simp only [List.cons_append, feedAll]
    cases feedToken tbl st k with
    | none => rfl
    | some st' => exact ih st'

lemma feedAll_take (tbl : ParseTable) (st : List Nat) (l : List String)
    (final : List Nat) (h : feedAll tbl st l = .ok final) (i : Nat) :
    ∃ m, feedAll tbl st (l.take i) = .ok m := by
  have happ := feedAll_append tbl st (l.take i) (l.drop i)
  rw [List.take_append_drop, h] at happ
  cases hfa : feedAll tbl st (l.take i) with
  | ok m => exact ⟨m, rfl⟩
  | error e => rw [hfa] at happ; simp at happ

lemma PSE_analyzeLoop_ok (h : PyHashFun) (tbl : ParseTable) (allT : List Token) :
    ∀ (ts : List Token) (i : Nat) (stack : List Nat) (st : Registry)
      (final : List Nat),
    feedAll tbl stack (ts.map Token.kind) = .ok final →
    (ParserStateExtractor.analyzeLoop h tbl allT ts i stack st).2.2 = none ∧
    (ParserStateExtractor.analyzeLoop h tbl allT ts i stack st).1.length = ts.length ∧
    ∀ r ∈ (ParserStateExtractor.analyzeLoop h tbl allT ts i stack st).1,
      r.success = true := by
  intro ts
  induction ts with
  | nil =>
    intro i stack st final _
    refine ⟨rfl, rfl, ?_⟩
    intro r hr
    simp [ParserStateExtractor.analyzeLoop] at hr
  | cons t rest ih =>
    intro i stack st final hfeed
    simp only [List.map_cons, feedAll] at hfeed
    cases hft : feedToken tbl stack t.kind with
    | none => rw [hft] at hfeed; simp at hfeed
    | some stack' =>
      rw [hft] at hfeed
      obtain ⟨h1, h2, h3⟩ :=
        ih (i + 1) stack' (get_parser_state h tbl stack' (some 3) st).2 final hfeed
      simp only [ParserStateExtractor.analyzeLoop, hft]
      refine ⟨h1, by simpa using h2, ?_⟩
      intro r hr
      simp only [List.mem_cons] at hr
      rcases hr with hr | hr
      · rw [hr]
      · exact h3 r hr

lemma LT_analyzeLoop_ok (h : PyHashFun) (tbl : ParseTable) (allT : List Token)
    (sdata : List Char)
    (hall : ∀ j, ∃ m, feedAll tbl [tbl.start] ((allT.take j).map Token.kind) = .ok m) :
    ∀ (k i : Nat) (st : Registry),
    (LarkTest.analyzeLoop h tbl allT sdata k i st).2.2 = none ∧
    (LarkTest.analyzeLoop h tbl allT sdata k i st).1.length = k ∧
    ∀ r ∈ (LarkTest.analyzeLoop h tbl allT sdata k i st).1, r.success = true := by
  intro k
  induction k with
  | zero =>
    intro i st
    refine ⟨rfl, rfl, ?_⟩
    intro r hr
    simp [LarkTest.analyzeLoop] at hr
  | succ k ih =>
    intro i st
    obtain ⟨m, hm⟩ := hall i
    simp only [LarkTest.analyzeLoop, hm]
    set st2 := (resolveStack h tbl m
      (_get_consistent_state_id h tbl ((m.getLast?).getD 0) st).2).2 with hst2
    obtain ⟨h1, h2, h3⟩ := ih (i + 1) st2
    refine ⟨h1, by simpa using h2, ?_⟩
    intro r hr
    simp only [List.mem_cons] at hr
    rcases hr with hr | hr
    · rw [hr]
    · exact h3 r hr

lemma setLastRemainder_length (rem : String) :
    ∀ l, (ParserStateExtractor.setLastRemainder rem l).length = l.length := by
  intro l
  induction l with
  | nil => rfl
  | cons r rs ih =>
    cases rs with
    | nil => rfl
    | cons r2 rs2 =>
      simp only [ParserStateExtractor.setLastRemainder, List.length_cons]
      simpa using ih

lemma setLastRemainder_success (rem : String) :
    ∀ l, (∀ r ∈ l, ParserStateExtractor.TraceRecord.success r = true) →
    ∀ r ∈ ParserStateExtractor.setLastRemainder rem l,
      ParserStateExtractor.TraceRecord.success r = true := by
  intro l
  induction l with
  | nil => intro _ r hr; simp [ParserStateExtractor.setLastRemainder] at hr
  | cons r0 rs ih =>
    intro hall r hr
    cases rs with
    | nil =>
      simp only [ParserStateExtractor.setLastRemainder, List.mem_singleton] at hr
      rw [hr]
      exact hall r0 (by simp)
    | cons r2 rs2 =>
      simp only [ParserStateExtractor.setLastRemainder, List.mem_cons] at hr
      rcases hr with hr | hr
      · rw [hr]; exact hall r0 (by simp)
      · exact ih (fun x hx => hall x (by simp [hx])) r hr

/-! ## Unfolding lemmas for the branch structure of the two modules -/

lemma gtwr_ok {lexer : PyLexer} {s : String} {ts : List Token}
    (hl : lexer s = (ts, none)) :
    ParserStateExtractor.get_tokens_with_remainder lexer s =
      ParserStateExtractor.gtwrFull s ts := by
  unfold ParserStateExtractor.get_tokens_with_remainder
  rw [hl]

lemma gtwr_err {lexer : PyLexer} {s : String} {ts : List Token} {p : Nat}
    (hl : lexer s = (ts, some p)) :
    ParserStateExtractor.get_tokens_with_remainder lexer s =
      ParserStateExtractor.gtwrErr lexer s p := by
  unfold ParserStateExtractor.get_tokens_with_remainder
  rw [hl]

lemma gtwrFull_nil (s : String) :
    ParserStateExtractor.gtwrFull s [] = .ok ([], s) := rfl

lemma gtwrFull_last {s : String} {ts : List Token} {t : Token}
    (hlast : ts.getLast? = some t) :
    ParserStateExtractor.gtwrFull s ts =
      (if t.endPos < s.data.length then
        .ok (ts, String.mk (s.data.drop t.endPos))
      else
        .ok (ts, "")) := by
  unfold ParserStateExtractor.gtwrFull
  rw [hlast]

lemma get_tokens_ok {lexer : PyLexer} {s : String} {ts : List Token}
    (hl : lexer s = (ts, none)) :
    ParserStateExtractor.get_tokens lexer s = .ok ts := by
  unfold ParserStateExtractor.get_tokens
  rw [hl]

lemma PSE_analyze_ok {h : PyHashFun} {tbl : ParseTable} {lexer : PyLexer}
    {s : String} {st : Registry} {ts : List Token} {rem : String}
    (hgt : ParserStateExtractor.get_tokens_with_remainder lexer s = .ok (ts, rem)) :
    ParserStateExtractor.analyze_incremental h tbl lexer s st =
      ParserStateExtractor.analyzeFinish s.data.length rem
        (ParserStateExtractor.analyzeLoop h tbl ts ts 0 [tbl.start] st) := by
  unfold ParserStateExtractor.analyze_incremental
  rw [hgt]

lemma LT_analyze_ok {h : PyHashFun} {tbl : ParseTable} {lexer : PyLexer}
    {s : String} {st : Registry} {ts : List Token}
    (hgt : ParserStateExtractor.get_tokens lexer s = .ok ts) :
    LarkTest.analyze_incremental h tbl lexer s st =
      LarkTest.analyzeFinish s.data.length
        (LarkTest.analyzeLoop h tbl ts s.data (ts.length + 1) 0 st) := by
  unfold LarkTest.analyze_incremental
  rw [hgt]

/-! ## Lexer lemmas: re-lexing the prefix before a failure offset reproduces
exactly the tokens recognized before the failure -/

lemma takeWhile_length_le (p : Char → Bool) :
    ∀ l : List Char, (l.takeWhile p).length ≤ l.length := by
  intro l
  induction l with
  | nil => simp
  | cons x xs ih =>
    by_cases hx : p x
    · rw [List.takeWhile_cons_of_pos hx]; simpa using ih
    · rw [List.takeWhile_cons_of_neg hx]; simp

lemma takeWhile_take_of_le (p : Char → Bool) :
    ∀ (l : List Char) (k : Nat), (l.takeWhile p).length ≤ k →
    (l.take k).takeWhile p = l.takeWhile p := by
  intro l
  induction l with
  | nil => simp
  | cons x xs ih =>
    intro k hk
    by_cases hx : p x
    · rw [List.takeWhile_cons_of_pos hx] at hk ⊢
      cases k with
      | zero => simp at hk
      | succ k' =>
        rw [List.take_succ_cons, List.takeWhile_cons_of_pos hx,
            ih k' (by simpa using hk)]
    · cases k with
      | zero => simp [List.takeWhile_cons_of_neg hx]
      | succ k' =>
        rw [List.take_succ_cons, List.takeWhile_cons_of_neg hx,
            List.takeWhile_cons_of_neg hx]

lemma take_drop_comm (l : List Char) (m k : Nat) (h : m ≤ k) :
    (l.take k).drop m = (l.drop m).take (k - m) := by
  rw [List.take_drop, Nat.add_sub_cancel' h]

/-- Any two adequate fuels give the same lexing result. -/
lemma lexChars_fuel_irrel :
    ∀ (f1 : Nat) (l : List Char) (pos : Nat) (f2 : Nat),
    l.length ≤ f1 → l.length ≤ f2 →
    lexChars f1 l pos = lexChars f2 l pos := by
  intro f1
  induction f1 with
  | zero =>
    intro l pos f2 h1 _
    have hnil : l = [] := List.length_eq_zero.mp (Nat.le_zero.mp h1)
    subst hnil
    cases f2 <;> rfl
  | succ f1 ih =>
    intro l pos f2 h1 h2
    cases l with
    | nil => cases f2 <;> rfl
    | cons c rest =>
      cases f2 with
      | zero => simp at h2
      | succ f2 =>
        have hr1 : rest.length ≤ f1 := by simpa using Nat.lt_succ_iff.mp h1
        have hr2 : rest.length ≤ f2 := by simpa using Nat.lt_succ_iff.mp h2
        by_cases hws : c.isWhitespace
        · rw [lexChars, lexChars, if_pos hws, if_pos hws]
          exact ih rest (pos + 1) f2 hr1 hr2
        · by_cases hdig : c.isDigit
          · rw [lexChars, lexChars, if_neg hws, if_neg hws, if_pos hdig, if_pos hdig]
            simp only
            have hdlen : (rest.takeWhile Char.isDigit).length ≤ rest.length :=
              takeWhile_length_le _ rest
            rw [ih (rest.drop (rest.takeWhile Char.isDigit).length)
                (pos + 1 + (rest.takeWhile Char.isDigit).length) f2
                (by simp [List.length_drop]; omega)
                (by simp [List.length_drop]; omega)]
          · cases hsym : symKind c with
            | some kt =>
              obtain ⟨kd, tx⟩ := kt
              rw [lexChars, lexChars, if_neg hws, if_neg hws, if_neg hdig,
                  if_neg hdig, hsym]
              simp only
              rw [ih rest (pos + 1) f2 hr1 hr2]
            | none =>
              rw [lexChars, lexChars, if_neg hws, if_neg hws, if_neg hdig,
                  if_neg hdig, hsym]

/-- Bounds on a lexer failure offset together with the prefix property: the
failure offset lies in the unconsumed region, and lexing only the part of the
input before the failure offset succeeds with exactly the tokens the failed
run had recognized. -/
lemma lexChars_err_spec :
    ∀ (n : Nat) (l : List Char), l.length ≤ n →
    ∀ (pos : Nat) (ts : List Token) (p : Nat),
    lexChars n l pos = (ts, some p) →
    pos ≤ p ∧ p ≤ pos + l.length ∧
    lexChars (p - pos) (l.take (p - pos)) pos = (ts, none) := by
  intro n
  induction n with
  | zero =>
    intro l hl pos ts p h
    have hnil : l = [] := List.length_eq_zero.mp (Nat.le_zero.mp hl)
    subst hnil
    simp [lexChars] at h
  | succ n ih =>
    intro l hl pos ts p h
    cases l with
    | nil => simp [lexChars] at h
    | cons c rest =>
      by_cases hws : c.isWhitespace
      · rw [lexChars, if_pos hws] at h
        obtain ⟨hp1, hp2, hp3⟩ := ih rest (by simpa using Nat.lt_succ_iff.mp hl) (pos + 1) ts p h
        refine ⟨by omega, by simp; omega, ?_⟩
        obtain ⟨d, hd⟩ : ∃ d, p - pos = d + 1 := ⟨p - pos - 1, by omega⟩
        rw [hd, List.take_succ_cons, lexChars, if_pos hws]
        have hdd : d = p - (pos + 1) := by omega
        rw [hdd]
        exact hp3
      · by_cases hdig : c.isDigit
        · rw [lexChars, if_neg hws, if_pos hdig] at h
          simp only at h
          set ds := rest.takeWhile Char.isDigit with hds
          set rest' := rest.drop ds.length with hrest'
          set pos' := pos + 1 + ds.length with hpos'
          cases hr : lexChars n rest' pos' with
          | mk ts' e =>
            rw [hr] at h
            simp only [Prod.mk.injEq] at h
            obtain ⟨hts, he⟩ := h
            cases e with
            | none => simp at he
            | some p' =>
              have hpp : p' = p := by simpa using he
              rw [hpp] at hr
              have hdlen : ds.length ≤ rest.length := hds ▸ takeWhile_length_le _ rest
              have hrl : rest'.length ≤ n := by
                rw [hrest', List.length_drop]
                have : rest.length ≤ n := by simpa using Nat.lt_succ_iff.mp hl
                omega
              obtain ⟨hp1, hp2, hp3⟩ := ih rest' hrl pos' ts' p hr
              have hp2' : p ≤ pos + (c :: rest).length := by
                rw [hrest', List.length_drop] at hp2
                simp only [List.length_cons]
                omega
              refine ⟨by omega, hp2', ?_⟩
              obtain ⟨d, hd⟩ : ∃ d, p - pos = d + 1 := ⟨p - pos - 1, by omega⟩
              have hdge : ds.length ≤ d := by omega
              rw [hd, List.take_succ_cons, lexChars, if_neg hws, if_pos hdig]
              simp only
              rw [takeWhile_take_of_le Char.isDigit rest d (hds ▸ hdge)]
              rw [← hds]
              rw [take_drop_comm rest ds.length d hdge]
              rw [← hrest']
              have hdd : d - ds.length = p - pos' := by omega
              have hfi : lexChars d (rest'.take (p - pos')) pos' =
                  lexChars (p - pos') (rest'.take (p - pos')) pos' :=
                lexChars_fuel_irrel d _ pos' (p - pos')
                  (by simp [List.length_take]; omega)
                  (by simp [List.length_take])
              rw [hdd, ← hpos', hfi, hp3, ← hts]
        · cases hsym : symKind c with
          | some kt =>
            obtain ⟨kd, tx⟩ := kt
            rw [lexChars, if_neg hws, if_neg hdig, hsym] at h
            simp only at h
            cases hr : lexChars n rest (pos + 1) with
            | mk ts' e =>
              rw [hr] at h
              simp only [Prod.mk.injEq] at h
              obtain ⟨hts, he⟩ := h
              cases e with
              | none => simp at he
              | some p' =>
                have hpp : p' = p := by simpa using he
                rw [hpp] at hr
                obtain ⟨hp1, hp2, hp3⟩ :=
                  ih rest (by simpa using Nat.lt_succ_iff.mp hl) (pos + 1) ts' p hr
                refine ⟨by omega, by simp; omega, ?_⟩
                obtain ⟨d, hd⟩ : ∃ d, p - pos = d + 1 := ⟨p - pos - 1, by omega⟩
                rw [hd, List.take_succ_cons, lexChars, if_neg hws, if_neg hdig, hsym]
                simp only
                have hdd : d = p - (pos + 1) := by omega
                rw [hdd, hp3, ← hts]
          | none =>
            rw [lexChars, if_neg hws, if_neg hdig, hsym] at h
            simp only [Prod.mk.injEq] at h
            obtain ⟨hts, he⟩ := h
            have hpp : p = pos := by simpa using he.symm
            subst hpp
            refine ⟨Nat.le_refl _, by simp, ?_⟩
            simp [← hts, lexChars]

/-! ## Claim theorems -/

lemma resolve_some (h : PyHashFun) (fp : Fingerprint) (st : Registry) :
    ∃ v st', resolveFingerprint h (some fp) st = (some v, st') := by
  cases hl : lookupKey st._state_mapping (h fp) with
  | some v => exact ⟨v, st, resolve_found hl⟩
  | none => exact ⟨_, _, resolve_new hl⟩

/-- C2: within one tracker lifetime (a well-formed registry), two raw states
with identical fingerprints always resolve to the same CanonicalStateId, and
two raw states with different fingerprints (whose hashes the ambient Python
hash separates, the property the hash-keyed dict of the source relies on)
never resolve to the same CanonicalStateId, resolving sequentially. -/
theorem C2_fingerprint_id_consistency (h : PyHashFun) (tbl : ParseTable)
    (s1 s2 : Nat) (st : Registry) (hwf : st.WF) (fp1 fp2 : Fingerprint)
    (h1 : _get_state_fingerprint tbl s1 = some fp1)
    (h2 : _get_state_fingerprint tbl s2 = some fp2)
    (hhash : fp1 ≠ fp2 → h fp1 ≠ h fp2) :
    (fp1 = fp2 →
      (_get_consistent_state_id h tbl s1 st).1 =
        (_get_consistent_state_id h tbl s2 (_get_consistent_state_id h tbl s1 st).2).1) ∧
    (fp1 ≠ fp2 →
      (_get_consistent_state_id h tbl s1 st).1 ≠
        (_get_consistent_state_id h tbl s2 (_get_consistent_state_id h tbl s1 st).2).1) := by
  simp only [_get_consistent_state_id, h1, h2]
  obtain ⟨v1, st1, hr1⟩ := resolve_some h fp1 st
  have hwf1 : st1.WF := by
    have := WF_resolve h (some fp1) hwf
    rw [hr1] at this
    exact this
  have hself : lookupKey st1._state_mapping (h fp1) = some v1 :=
    resolve_then_lookup hr1
  rw [hr1]
  constructor
  · intro heq
    subst heq
    rw [resolve_found hself]
  · intro hne
    have hk := hhash hne
    cases hl2 : lookupKey st1._state_mapping (h fp2) with
    | some v2 =>
      rw [resolve_found hl2]
      have hvne := WF_lookup_inj hwf1 hself hl2 hk
      simpa using hvne
    | none =>
      rw [resolve_new hl2]
      obtain ⟨j, hj, hv⟩ := WF_lookup_val hwf1 hself
      simp only [Option.some.injEq, ne_eq]
      intro hcon
      rw [hv] at hcon
      exact absurd (sRepr_injective hcon) (by omega)

/-- Witness for C2 at the raw states 0 and 7 of the arithmetic automaton
(distinct fingerprints, separated by the concrete hash) from a fresh
registry: the two canonical ids differ, and resolving state 0 against itself
agrees. -/
theorem C2_fingerprint_id_consistency_witness :
    ((_get_state_fingerprint arithTable 0).getD [] =
        (_get_state_fingerprint arithTable 0).getD [] →
      (_get_consistent_state_id pyHash arithTable 0 Registry.init).1 =
        (_get_consistent_state_id pyHash arithTable 0
          (_get_consistent_state_id pyHash arithTable 0 Registry.init).2).1) ∧
    ((_get_state_fingerprint arithTable 0).getD [] ≠
        (_get_state_fingerprint arithTable 7).getD [] →
      (_get_consistent_state_id pyHash arithTable 0 Registry.init).1 ≠
        (_get_consistent_state_id pyHash arithTable 7
          (_get_consistent_state_id pyHash arithTable 0 Registry.init).2).1) :=
  ⟨(C2_fingerprint_id_consistency pyHash arithTable 0 0 Registry.init WF_init
      ((_get_state_fingerprint arithTable 0).getD [])
      ((_get_state_fingerprint arithTable 0).getD []) rfl rfl
      (fun hne => absurd rfl hne)).1,
   (C2_fingerprint_id_consistency pyHash arithTable 0 7 Registry.init WF_init
      ((_get_state_fingerprint arithTable 0).getD [])
      ((_get_state_fingerprint arithTable 7).getD []) rfl rfl
      (fun _ => by decide)).2⟩

/-- C6: the registry mints ids in first-seen order S0, S1, ...; a fingerprint
whose hash was seen returns the stored id with the registry unchanged; a
novel hash receives the next counter value and is appended; existing
associations survive any further sequence of resolves (ids are never reused
or renumbered, the mapping only grows); resolving a null fingerprint returns
null without minting. -/
theorem C6_registry_behavior (h : PyHashFun) (st : Registry) (fp : Fingerprint)
    (fps : List (Option Fingerprint)) :
    resolveFingerprint h none st = (none, st) ∧
    (∀ v, lookupKey st._state_mapping (h fp) = some v →
      resolveFingerprint h (some fp) st = (some v, st)) ∧
    (lookupKey st._state_mapping (h fp) = none →
      resolveFingerprint h (some fp) st =
        (some ("S" ++ Nat.repr st._state_counter),
         { _state_mapping :=
             st._state_mapping ++ [(h fp, "S" ++ Nat.repr st._state_counter)],
           _state_counter := st._state_counter + 1 })) ∧
    (∀ k v, lookupKey st._state_mapping k = some v →
      lookupKey (applyResolves h fps st)._state_mapping k = some v) ∧
    (st.WF → (applyResolves h fps st).WF) := by
  refine ⟨rfl, ?_, ?_, ?_, ?_⟩
  · intro v hv; exact resolve_found hv
  · intro hv; exact resolve_new hv
  · intro k v hv; exact applyResolves_preserves fps hv
  · intro hwf; exact WF_applyResolves h fps hwf

/-- Witness for C6: concrete registries exercising every conjunct (a fresh
registry, a registry already holding one association, and a two-step resolve
sequence whose first association survives). -/
theorem C6_registry_behavior_witness :
    resolveFingerprint pyHash none Registry.init = (none, Registry.init) ∧
    resolveFingerprint pyHash (some [])
        ⟨[(pyHash [], "S0")], 1⟩ = (some "S0", ⟨[(pyHash [], "S0")], 1⟩) ∧
    resolveFingerprint pyHash (some []) Registry.init =
      (some ("S" ++ Nat.repr 0),
       ⟨[(pyHash [], "S" ++ Nat.repr 0)], 1⟩) ∧
    lookupKey (applyResolves pyHash [some [("a", "b")]]
        ⟨[(pyHash [], "S0")], 1⟩)._state_mapping (pyHash []) = some "S0" ∧
    (applyResolves pyHash [some [("a", "b")], none] Registry.init).WF := by
  have H1 := C6_registry_behavior pyHash ⟨[(pyHash [], "S0")], 1⟩ []
    [some [("a", "b")]]
  have H0 := C6_registry_behavior pyHash Registry.init []
    [some [("a", "b")], none]
  exact ⟨H0.1,
    H1.2.1 "S0" (by decide),
    H0.2.2.1 (by decide),
    H1.2.2.2.1 (pyHash []) "S0" (by decide),
    H0.2.2.2.2 WF_init⟩

/-- C7 (amended): for every session state and every positive topK, the
truncated snapshot stack is the suffix of the untruncated one of length
min(topK, depth); the claim fails as stated for topK = 0, where Python
slicing returns the whole stack. -/
theorem C7_truncation_law (h : PyHashFun) (tbl : ParseTable)
    (raw_stack : List Nat) (st : Registry) (k : Int) (hk : 1 ≤ k) :
    ((get_parser_state h tbl raw_stack (some k) st).1.stack).length =
      min k.toNat ((get_parser_state h tbl raw_stack none st).1.stack).length ∧
    (get_parser_state h tbl raw_stack (some k) st).1.stack =
      ((get_parser_state h tbl raw_stack none st).1.stack).drop
        (((get_parser_state h tbl raw_stack none st).1.stack).length - k.toNat) := by
  simp only [get_parser_state]
  exact ⟨pySliceFrom_neg_length k hk _, pySliceFrom_neg k hk _⟩

/-- Witness for C7 at topK = 2 on a depth-5 session stack of the arithmetic
automaton: the returned stack has exactly two entries, the last two of the
untruncated stack. -/
theorem C7_truncation_law_witness :
    ((get_parser_state pyHash arithTable [0, 7, 7, 7, 6] (some 2) Registry.init).1.stack).length =
      min (Int.toNat 2)
        ((get_parser_state pyHash arithTable [0, 7, 7, 7, 6] none Registry.init).1.stack).length ∧
    (get_parser_state pyHash arithTable [0, 7, 7, 7, 6] (some 2) Registry.init).1.stack =
      ((get_parser_state pyHash arithTable [0, 7, 7, 7, 6] none Registry.init).1.stack).drop
        (((get_parser_state pyHash arithTable [0, 7, 7, 7, 6] none Registry.init).1.stack).length -
          Int.toNat 2) :=
  C7_truncation_law pyHash arithTable [0, 7, 7, 7, 6] Registry.init 2 (by decide)

/-- Counterexample to C7 as stated: at topK = 0 (a non-null topK) the
returned stack is the whole canonical stack, of length 1 rather than
min(0, 1) = 0, because the Python slice l[-0:] is l[0:]. -/
theorem C7_counterexample :
    (get_parser_state pyHash arithTable [0] (some 0) Registry.init).1.stack = [some "S0"] ∧
    ((get_parser_state pyHash arithTable [0] (some 0) Registry.init).1.stack).length ≠
      min (Int.toNat 0) 1 := by
  exact ⟨by decide, by decide⟩

/-- C10: every call of parse_partial with a provided (non-None) tokens
argument returns the failure dictionary, whatever the automaton, lexer,
topK, registry and tokens: a feed failure lands in the except branch, and a
fully successful feed still raises the NameError on the unbound remainder. -/
theorem C10_tokens_arg_always_fails (h : PyHashFun) (tbl : ParseTable)
    (lexer : PyLexer) (s : String) (top_k : Option Int) (ts : List Token)
    (st : Registry) :
    (ParserStateExtractor.parsePartial h tbl lexer s top_k (some ts) st).1.isErr = true := by
  simp only [ParserStateExtractor.parsePartial]
  cases feedAll tbl [tbl.start] (ts.map Token.kind) <;>
    simp [ParserStateExtractor.PPResult.isErr]

lemma getLast?_none_eq_nil {α : Type} : ∀ {l : List α}, l.getLast? = none → l = [] := by
  intro l h
  cases l with
  | nil => rfl
  | cons a l => simp [List.getLast?] at h

/-- C4: whenever lexing fails at offset p (a span matching no terminal), the
lexing operation returns, rather than raising: exactly the tokens recognized
before the failure offset, with the unconsumed suffix from that offset as the
remainder (the function is total; the error result of the embedded inner
re-lex is not reached, as the conclusion shows). -/
theorem C4_lex_error_containment (s : String) (ts : List Token) (p : Nat)
    (hfail : arithLex s = (ts, some p)) :
    ParserStateExtractor.get_tokens_with_remainder arithLex s =
      .ok (ts, String.mk (s.data.drop p)) := by
  obtain ⟨hp1, hp2, hp3⟩ :=
    lexChars_err_spec s.data.length s.data (Nat.le_refl _) 0 ts p hfail
  have harith : arithLex (String.mk (s.data.take p)) = (ts, none) := by
    show lexChars (s.data.take p).length (s.data.take p) 0 = (ts, none)
    have hlt : (s.data.take p).length = p := by
      simp only [List.length_take]
      omega
    rw [hlt]
    simpa using hp3
  rw [gtwr_err hfail]
  unfold ParserStateExtractor.gtwrErr
  rw [harith]

/-- Witness for C4 on the scenario input with an unrecognized character:
lexing of the input stops at the offset of the unrecognized character, and
get_tokens_with_remainder returns the NUMBER token for the prefix together
with the unconsumed suffix. -/
theorem C4_lex_error_containment_witness :
    arithLex "1 # 2" = ([⟨"NUMBER", "1", 0, 1⟩], some 2) ∧
    ParserStateExtractor.get_tokens_with_remainder arithLex "1 # 2" =
      .ok ([⟨"NUMBER", "1", 0, 1⟩], "# 2") := by
  refine ⟨by decide, ?_⟩
  have hmain := C4_lex_error_containment "1 # 2" [⟨"NUMBER", "1", 0, 1⟩] 2 (by decide)
  have hstr : String.mk ("1 # 2".data.drop 2) = "# 2" := by decide
  rw [hstr] at hmain
  exact hmain

/-- C9 (amended): the lexer returns an empty remainder exactly when the input
is empty or the last recognized token ends at the end of the input; an input
that lexes cleanly but ends in ignored trailing text (in particular a
whitespace-only input) instead returns that trailing text as the remainder. -/
theorem C9_full_cover_remainder (s : String) (ts : List Token)
    (hlex : arithLex s = (ts, none))
    (hcov : s.data = [] ∨ ∃ t, ts.getLast? = some t ∧ t.endPos = s.data.length) :
    ParserStateExtractor.get_tokens_with_remainder arithLex s = .ok (ts, "") := by
  rcases hcov with hnil | ⟨t, hlast, hend⟩
  · have hts : ts = [] := by
      have h0 : (([] : List Token), (none : Option Nat)) = (ts, none) := by
        have h1 : lexChars s.data.length s.data 0 = (ts, none) := hlex
        rw [hnil] at h1
        exact h1
      injection h0 with h0a h0b
      exact h0a.symm
    have hs : s = "" := String.ext (by simpa using hnil)
    subst hts
    rw [gtwr_ok hlex, gtwrFull_nil, hs]
  · rw [gtwr_ok hlex, gtwrFull_last hlast, if_neg (by omega)]

/-- Witness for C9 on a fully-tokenizable input whose last token reaches the
end of the input: the remainder is empty. -/
theorem C9_full_cover_remainder_witness :
    ParserStateExtractor.get_tokens_with_remainder arithLex "1+2" =
      .ok ([⟨"NUMBER", "1", 0, 1⟩, ⟨"PLUS", "+", 1, 2⟩, ⟨"NUMBER", "2", 2, 3⟩], "") :=
  C9_full_cover_remainder "1+2"
    [⟨"NUMBER", "1", 0, 1⟩, ⟨"PLUS", "+", 1, 2⟩, ⟨"NUMBER", "2", 2, 3⟩]
    (by decide)
    (Or.inr ⟨⟨"NUMBER", "2", 2, 3⟩, by decide, by decide⟩)

/-- Counterexample to C9 as stated: a whitespace-only input lexes cleanly
(no error position), yet the returned remainder is the whole input, not
empty, because no token covers the ignored span. -/
theorem C9_counterexample :
    arithLex " " = ([], none) ∧
    ParserStateExtractor.get_tokens_with_remainder arithLex " " = .ok ([], " ") ∧
    (" " : String) ≠ "" :=
  ⟨by decide, by decide, by decide⟩

/-- C5 evidence: on the empty input the lexer returns no tokens and an empty
remainder (the claim is right there), but analyze_incremental of
ParserStateExtractor.py returns a single failure record carrying the
IndexError message of the unguarded results[-1] assignment, not the
success record of the start state that the spec describes and that the
lark-test.py variant produces. -/
theorem C5_empty_input_evidence :
    ParserStateExtractor.get_tokens_with_remainder arithLex "" = .ok ([], "") ∧
    (ParserStateExtractor.analyze_incremental pyHash arithTable arithLex "" Registry.init).1 =
      [{ position := 0, success := false, error := some "list index out of range" }] ∧
    (LarkTest.analyze_incremental pyHash arithTable arithLex "" Registry.init).1 =
      [{ position := 0, tokens_parsed := 0, text := "", current_state := some "S0",
         stack := [some "S0"], raw_stack := [0], success := true }] :=
  ⟨by decide, by decide, by decide⟩

/-- C3 evidence: parse_partial called with top_k = None on an input whose
session stack is 4 deep returns a 3-entry stack (the get_parser_state
default), not the full canonical stack: the top_k argument is dropped on the
way to get_parser_state. -/
theorem C3_topk_dropped_evidence :
    (ParserStateExtractor.parsePartial pyHash arithTable arithLex "(((" none none Registry.init).1 =
      ParserStateExtractor.PPResult.ok
        ⟨some "S0", [some "S0", some "S0", some "S0"], some (some "S0")⟩ "" ∧
    feedAll arithTable [0] ["LPAR", "LPAR", "LPAR"] = .ok [0, 7, 7, 7] ∧
    ((get_parser_state pyHash arithTable [0, 7, 7, 7] none Registry.init).1.stack).length = 4 :=
  ⟨by decide, by decide, by decide⟩

/-- Counterexample to C8 as stated: single-shot parse_partial on the input
made of a number followed by a plus does not report a failure: both lexed
tokens feed successfully and no end-of-input marker is ever fed. -/
theorem C8_counterexample :
    (ParserStateExtractor.parsePartial pyHash arithTable arithLex "1+" none none Registry.init).1.isErr = false := by
  decide

/-- C8 (amended): parse_partial on the number-plus input returns a successful
snapshot with empty remainder (no end-of-input is fed, so no rejection
happens), and the one-token prefix analyzed incrementally at position 1 has
success true (as has the two-token prefix at position 2). -/
theorem C8_partial_plus_behavior :
    (ParserStateExtractor.parsePartial pyHash arithTable arithLex "1+" none none Registry.init).1 =
      ParserStateExtractor.PPResult.ok
        ⟨some "S0", [some "S1", some "S2", some "S0"], some (some "S0")⟩ "" ∧
    ((ParserStateExtractor.analyze_incremental pyHash arithTable arithLex "1+" Registry.init).1.map
        (fun r => (r.position, r.success))) = [(1, true), (2, true)] :=
  ⟨by decide, by decide⟩

/-- Counterexample to C1 as stated: a 3-token input to analyze_incremental of
ParserStateExtractor.py yields exactly 3 trace records, not 4: the module
advances one shared session per token and emits no record for the empty
prefix. -/
theorem C1_counterexample :
    (arithLex "1+2").1.length = 3 ∧
    (ParserStateExtractor.analyze_incremental pyHash arithTable arithLex "1+2" Registry.init).1.length = 3 ∧
    (ParserStateExtractor.analyze_incremental pyHash arithTable arithLex "1+2" Registry.init).1.length ≠ 3 + 1 :=
  ⟨by decide, by decide, by decide⟩

/-- C1 (amended): for an input whose lexing yields n tokens (n at least 1)
that all feed successfully, analyze_incremental of ParserStateExtractor.py
returns exactly n records (one per fed token, a single session advanced in
place), all with success true, while analyze_incremental of lark-test.py
returns exactly n+1 records (one per prefix length 0..n, each from a fresh
session replayed from scratch), all with success true. -/
theorem C1_incremental_record_counts (h : PyHashFun) (tbl : ParseTable)
    (lexer : PyLexer) (s : String) (ts : List Token) (final : List Nat)
    (st : Registry)
    (hlex : lexer s = (ts, none)) (hne : 1 ≤ ts.length)
    (hfeed : feedAll tbl [tbl.start] (ts.map Token.kind) = .ok final) :
    (ParserStateExtractor.analyze_incremental h tbl lexer s st).1.length = ts.length ∧
    (∀ r ∈ (ParserStateExtractor.analyze_incremental h tbl lexer s st).1,
      r.success = true) ∧
    (LarkTest.analyze_incremental h tbl lexer s st).1.length = ts.length + 1 ∧
    (∀ r ∈ (LarkTest.analyze_incremental h tbl lexer s st).1, r.success = true) := by
  have hgt : ∃ rem,
      ParserStateExtractor.get_tokens_with_remainder lexer s = .ok (ts, rem) := by
    cases hlast : ts.getLast? with
    | none =>
      refine ⟨s, ?_⟩
      rw [gtwr_ok hlex, getLast?_none_eq_nil hlast, gtwrFull_nil]
    | some t =>
      by_cases hlt : t.endPos < s.data.length
      · exact ⟨_, by rw [gtwr_ok hlex, gtwrFull_last hlast, if_pos hlt]⟩
      · exact ⟨"", by rw [gtwr_ok hlex, gtwrFull_last hlast, if_neg hlt]⟩
  obtain ⟨rem, hgt⟩ := hgt
  obtain ⟨hln, hlen, hsucc⟩ :=
    PSE_analyzeLoop_ok h tbl ts ts 0 [tbl.start] st final hfeed
  have hPSE :
      (ParserStateExtractor.analyze_incremental h tbl lexer s st).1 =
        ParserStateExtractor.setLastRemainder rem
          (ParserStateExtractor.analyzeLoop h tbl ts ts 0 [tbl.start] st).1 := by
    rw [PSE_analyze_ok hgt]
    cases hloop : ParserStateExtractor.analyzeLoop h tbl ts ts 0 [tbl.start] st with
    | mk recs rest2 =>
      obtain ⟨st2, err?⟩ := rest2
      rw [hloop] at hln hlen
      simp only at hln hlen
      subst hln
      cases hrecs : recs with
      | nil =>
        rw [hrecs] at hlen
        simp at hlen
        omega
      | cons r0 rs => rfl
  have hgt2 : ParserStateExtractor.get_tokens lexer s = .ok ts :=
    get_tokens_ok hlex
  have hall : ∀ j, ∃ m,
      feedAll tbl [tbl.start] ((ts.take j).map Token.kind) = .ok m := by
    intro j
    have hj := feedAll_take tbl [tbl.start] (ts.map Token.kind) final hfeed j
    simpa [List.map_take] using hj
  obtain ⟨hn2, hlen2, hsucc2⟩ :=
    LT_analyzeLoop_ok h tbl ts s.data hall (ts.length + 1) 0 st
  have hLT :
      (LarkTest.analyze_incremental h tbl lexer s st).1 =
        (LarkTest.analyzeLoop h tbl ts s.data (ts.length + 1) 0 st).1 := by
    rw [LT_analyze_ok hgt2]
    cases hloop2 : LarkTest.analyzeLoop h tbl ts s.data (ts.length + 1) 0 st with
    | mk recs2 rest2 =>
      obtain ⟨st2, err2⟩ := rest2
      rw [hloop2] at hn2
      simp only at hn2
      subst hn2
      rfl
  refine ⟨?_, ?_, ?_, ?_⟩
  · rw [hPSE, setLastRemainder_length, hlen]
  · rw [hPSE]
    exact setLastRemainder_success rem _ hsucc
  · rw [hLT, hlen2]
  · rw [hLT]
    exact hsucc2

/-- Witness for C1 on the 3-token arithmetic input: ParserStateExtractor.py
yields 3 records, lark-test.py yields 4, all successful. -/
theorem C1_incremental_record_counts_witness :
    (ParserStateExtractor.analyze_incremental pyHash arithTable arithLex "1+2" Registry.init).1.length = 3 ∧
    (∀ r ∈ (ParserStateExtractor.analyze_incremental pyHash arithTable arithLex "1+2" Registry.init).1,
      r.success = true) ∧
    (LarkTest.analyze_incremental pyHash arithTable arithLex "1+2" Registry.init).1.length = 3 + 1 ∧
    (∀ r ∈ (LarkTest.analyze_incremental pyHash arithTable arithLex "1+2" Registry.init).1,
      r.success = true) :=
  C1_incremental_record_counts pyHash arithTable arithLex "1+2"
    [⟨"NUMBER", "1", 0, 1⟩, ⟨"PLUS", "+", 1, 2⟩, ⟨"NUMBER", "2", 2, 3⟩]
    [0, 3, 8, 6] Registry.init (by decide) (by decide) (by decide)

end GrammarGen
